import Mathlib

/-!
Verification development for the relationship-graph cache implemented in
`graph.ts` (the `-private` directory of the graph package).

The development shallowly embeds the slices of `graph.ts` that the checked
properties are about:

* the update scheduler (`push`, `_flushRemoteQueue`, `_flushLocalQueue`,
  `_scheduleLocalSync`);
* the flush transaction bookkeeping (`_addToTransaction`, `_finalize`);
* the edge-definition cache (`getDefinition`);
* the node registry and dematerialization engine (`has`, `isReleasable`,
  `unload`, `remove`, `destroyRelationship`, `notifyInverseOfDematerialization`,
  `clearRelationship`, `removeDematerializedInverse`,
  `removeCompletelyFromInverse`).

JavaScript in-place object mutation is embedded as explicit state passing:
the graph is a finite map from identifiers to nodes, a node is a finite map
from field names to edges (a key bound to `none` models a key whose value
was set to `undefined`), and every function returns the updated state.
Helpers that `graph.ts` imports from sibling modules that are not part of
the sources (`-utils`, `-edge-definition`, `operations/*`) are modelled from
the spec and are marked as such in their doc comments.
-/

/-- A stable record identifier. The spec treats identities as externally
owned opaque keys (entity type + id) with reference equality.

Modelled from the spec: the `isNew` helper from `-utils` is not in the
sources; the spec calls this a "client-only (never-persisted)" /
"unpersisted (new)" entity, so we carry the flag on the identifier itself. -/
structure StableIdentifier where
  type : String
  id : Nat
  isNew : Bool
deriving DecidableEq, Repr

/-- Modelled stand-in for the `isNew` helper from `-utils` (see
`StableIdentifier.isNew`). -/
def isNew (identifier : StableIdentifier) : Bool :=
  identifier.isNew

/-- The three relationship kinds of `UpgradedMeta.kind`. -/
inductive RelKind where
  | belongsTo
  | hasMany
  | implicit
deriving DecidableEq, Repr

/-- The resolved, immutable shape of one side of a relationship
(`UpgradedMeta` from `-edge-definition`): kind, own and inverse field
names, sync/async flags and implicitness of both sides. -/
structure UpgradedMeta where
  kind : RelKind
  key : String
  inverseKey : String
  isAsync : Bool
  inverseIsAsync : Bool
  isImplicit : Bool
  inverseIsImplicit : Bool
deriving DecidableEq, Repr

/- ### Association lists

JavaScript objects / `Map`s keyed by identifiers or field names are
embedded as association lists without duplicate keys; `aset` replaces in
place (preserving insertion order, as JavaScript key iteration does) and
appends when the key is absent. -/

/-- Lookup in an association list. -/
def alookup {α β : Type} [DecidableEq α] : List (α × β) → α → Option β
  | [], _ => none
  | (k, v) :: t, a => if k = a then some v else alookup t a

/-- Insert-or-replace in an association list, preserving key order. -/
def aset {α β : Type} [DecidableEq α] : List (α × β) → α → β → List (α × β)
  | [], a, b => [(a, b)]
  | (k, v) :: t, a, b => if k = a then (a, b) :: t else (k, v) :: aset t a b

/-- Remove every binding of a key from an association list. -/
def aerase {α β : Type} [DecidableEq α] (l : List (α × β)) (a : α) : List (α × β) :=
  l.filter (fun p => decide (p.1 ≠ a))

/- ### Update Scheduler (`push`, `_flushRemoteQueue`, `_flushLocalQueue`)

The scheduler slice of the `Graph` class: the three pending remote queues,
the two "flush already scheduled" flags, the flush transaction handle, and
the set of collection edges awaiting a local resync.  The external deferred
execution facility (`getStore(this.store)._schedule`) is modelled by
counting registrations, and the application of one remote operation via
`update(op, true)` is modelled by appending the operation to the `applied`
log (the operation semantics live in the operation modules, which only the
order of invocation matters for here). -/

/-- The `op` tag of a remote relationship operation. -/
inductive RemoteOpName where
  | deleteRecord
  | replaceRelatedRecord
  | replaceRelatedRecords
  | updateRelationship
deriving DecidableEq, Repr

/-- A remote relationship operation as queued by `push`. -/
structure RemoteOp where
  op : RemoteOpName
  record : StableIdentifier
  field : String
deriving DecidableEq, Repr

/-- The scheduler-relevant fields of the `Graph` class. -/
structure SchedulerState where
  deletions : List RemoteOp
  hasMany : List RemoteOp
  belongsTo : List RemoteOp
  willSyncRemote : Bool
  willSyncLocal : Bool
  /-- number of `_schedule('coalesce', ...)` registrations made so far -/
  scheduledCoalesce : Nat
  /-- number of `_schedule('sync', ...)` registrations made so far -/
  scheduledSync : Nat
  /-- the `_transaction` handle (`none` = `null`) -/
  transaction : Option Unit
  /-- log of `update(op, true)` invocations performed by remote flushes -/
  applied : List RemoteOp
  /-- Field `_updatedRelationships`: collection edges (abstracted as numbers)
  awaiting a local resync; a `Set`, so membership is deduplicated -/
  updatedRelationships : List Nat
  /-- log of `syncRemoteToLocal` invocations performed by local flushes -/
  synced : List Nat
deriving DecidableEq, Repr

namespace SchedulerState

/-- Embeds `Graph.push` (graph.ts:291-309).  Appends the operation to one of the
three pending queues by category (`deleteRecord` goes to `deletions`,
`replaceRelatedRecord` to `belongsTo`, anything else to the queue named by
the resolved definition kind, with a fatal assert on `implicit`), and on
the first push since the last flush sets `_willSyncRemote` and registers
the coalesce flush.

`kindOf` abstracts `this.getDefinition(op.record, op.field).kind`; the
definition cache itself is embedded separately (see `DefCacheState`). -/
def push (kindOf : String → String → RelKind) (s : SchedulerState) (op : RemoteOp) :
    Except String SchedulerState := do
  let s ←
    if op.op = RemoteOpName.deleteRecord then
      pure { s with deletions := s.deletions ++ [op] }
    else if op.op = RemoteOpName.replaceRelatedRecord then
      pure { s with belongsTo := s.belongsTo ++ [op] }
    else
      match kindOf op.record.type op.field with
      | RelKind.belongsTo => pure { s with belongsTo := s.belongsTo ++ [op] }
      | RelKind.hasMany => pure { s with hasMany := s.hasMany ++ [op] }
      | RelKind.implicit => Except.error "Cannot push a remote update for an implicit relationship"
  if s.willSyncRemote then
    pure s
  else
    pure { s with willSyncRemote := true, scheduledCoalesce := s.scheduledCoalesce + 1 }

/-- A sequence of `push` calls (the assert aborts the whole run). -/
def pushAll (kindOf : String → String → RelKind) (s : SchedulerState) (ops : List RemoteOp) :
    Except String SchedulerState :=
  ops.foldlM (push kindOf) s

/-- One `this.update(op, true)` invocation inside `_flushRemoteQueue`,
abstracted to its invocation log entry. -/
def applyRemote (s : SchedulerState) (op : RemoteOp) : SchedulerState :=
  { s with applied := s.applied ++ [op] }

/-- Embeds `Graph._finalize` (graph.ts:434-445), restricted to the scheduler
fields: clears the transaction handle if one is open.  (The
`transactionRef` resets are covered by the transaction model below.) -/
def finalize (s : SchedulerState) : SchedulerState :=
  match s.transaction with
  | some _ => { s with transaction := none }
  | none => s

/-- Embeds `Graph._flushRemoteQueue` (graph.ts:395-422): bail out unless a flush
is pending; open a transaction; clear the pending flag; drain and clear the
three queues; then apply all deletions, then all hasMany updates, then all
belongsTo updates, each via `update(op, true)`; finally finalize the
transaction. -/
def flushRemoteQueue (s : SchedulerState) : SchedulerState :=
  if !s.willSyncRemote then s
  else
    let s := { s with transaction := some () }
    let s := { s with willSyncRemote := false }
    let deletions := s.deletions
    let hasMany := s.hasMany
    let belongsTo := s.belongsTo
    let s := { s with deletions := [], hasMany := [], belongsTo := [] }
    let s := deletions.foldl applyRemote s
    let s := hasMany.foldl applyRemote s
    let s := belongsTo.foldl applyRemote s
    finalize s

/-- Embeds `Graph._scheduleLocalSync` (graph.ts:387-393): add the edge to the
pending set and register the sync flush on the first call since the last
local flush. -/
def scheduleLocalSync (s : SchedulerState) (relationship : Nat) : SchedulerState :=
  let s :=
    { s with
      updatedRelationships :=
        if s.updatedRelationships.contains relationship then s.updatedRelationships
        else s.updatedRelationships ++ [relationship] }
  if s.willSyncLocal then s
  else { s with willSyncLocal := true, scheduledSync := s.scheduledSync + 1 }

/-- Embeds `Graph._flushLocalQueue` (graph.ts:447-455): bail out unless a local
flush is pending; clear the flag; drain the pending set and run
`syncRemoteToLocal` for each edge (abstracted to the `synced` log, as
`syncRemoteToLocal` lives in `operations/replace-related-records`). -/
def flushLocalQueue (s : SchedulerState) : SchedulerState :=
  if !s.willSyncLocal then s
  else
    let s := { s with willSyncLocal := false }
    let updated := s.updatedRelationships
    let s := { s with updatedRelationships := [] }
    { s with synced := s.synced ++ updated }

end SchedulerState

/-- Category a remote op is queued to by `push` (a pure description of the
branching in graph.ts:296-304). -/
def isDeletionOp (op : RemoteOp) : Bool :=
  op.op = RemoteOpName.deleteRecord

/-- The op lands in the `hasMany` queue. -/
def isHasManyOp (kindOf : String → String → RelKind) (op : RemoteOp) : Bool :=
  op.op ≠ RemoteOpName.deleteRecord ∧ op.op ≠ RemoteOpName.replaceRelatedRecord ∧
    kindOf op.record.type op.field = RelKind.hasMany

/-- The op lands in the `belongsTo` queue. -/
def isBelongsToOp (kindOf : String → String → RelKind) (op : RemoteOp) : Bool :=
  op.op = RemoteOpName.replaceRelatedRecord ∨
    (op.op ≠ RemoteOpName.deleteRecord ∧ kindOf op.record.type op.field = RelKind.belongsTo)

/- ### Flush transaction bookkeeping (`_addToTransaction`, `_finalize`)

The transaction slice of the `Graph` class: each edge's `transactionRef`
counter (edges abstracted to numeric ids, absent id = counter 0) and the
`_transaction` set of edges touched during the current remote flush.
`_addToTransaction` is called by the operation processor whenever it
touches an edge while a transaction is open; a remote flush opens the
transaction, performs its updates (each possibly touching edges), and
finalizes. -/

/-- The `transactionRef` counters and the `_transaction` handle. -/
structure TxState where
  transactionRefs : List (Nat × Nat)
  transaction : Option (List Nat)
deriving DecidableEq, Repr

namespace TxState

/-- An edge's current `transactionRef` (0 when never touched). -/
def refOf (s : TxState) (e : Nat) : Nat :=
  (alookup s.transactionRefs e).getD 0

/-- Every edge's `transactionRef` is zero. -/
def allRefsZero (s : TxState) : Prop :=
  ∀ e, s.refOf e = 0

/-- Embeds `Graph._addToTransaction` (graph.ts:424-432): asserts a transaction is
open, increments the edge's `transactionRef` and adds the edge to the
transaction set. -/
def addToTransaction (s : TxState) (e : Nat) : Except String TxState :=
  match s.transaction with
  | none => Except.error "expected a transaction"
  | some t =>
    Except.ok
      { transactionRefs := aset s.transactionRefs e (s.refOf e + 1),
        transaction := some (if t.contains e then t else t ++ [e]) }

/-- Embeds `Graph._finalize` (graph.ts:434-445): resets `transactionRef` to zero
on every edge in the transaction set and clears the handle. -/
def finalizeTx (s : TxState) : TxState :=
  match s.transaction with
  | some t =>
    { transactionRefs :=
        s.transactionRefs.map (fun p => (p.1, if t.contains p.1 then 0 else p.2)),
      transaction := none }
  | none => s

/-- The `_addToTransaction` touches performed while a flush runs (the
assert cannot fire while the transaction is open, so the error arm is
dead). -/
def addAll (s : TxState) (touched : List Nat) : TxState :=
  touched.foldl
    (fun s e =>
      match s.addToTransaction e with
      | Except.ok s2 => s2
      | Except.error _ => s) s

/-- One remote flush, seen through the transaction bookkeeping: open the
transaction (graph.ts:403), run the queued updates — which touch the edges
in `touched`, each touch calling `_addToTransaction` — then `_finalize`. -/
def remoteFlushTx (s : TxState) (touched : List Nat) : TxState :=
  finalizeTx (addAll { s with transaction := some [] } touched)

end TxState

/- ### Edge Definition Resolver (`getDefinition`) -/

/-- The definition-cache slice of the `Graph` class: the `_metaCache`
nested record (type → field → `UpgradedMeta`) together with a log of the
`upgradeDefinition` invocations performed so far. -/
structure DefCacheState where
  metaCache : List (String × List (String × UpgradedMeta))
  upgradeCalls : List (String × String)
deriving DecidableEq, Repr

namespace DefCacheState

/-- The cached definition for a (type, field) pair, if any. -/
def cached (s : DefCacheState) (type propertyName : String) : Option UpgradedMeta :=
  (alookup s.metaCache type).bind (fun defs => alookup defs propertyName)

/-- Embeds `Graph.getDefinition` (graph.ts:103-121): return the cached definition
when present; otherwise invoke the external resolution, assert it
succeeded, select the side matching the identifier, cache it per type, and
return it.

`upgrade` abstracts `upgradeDefinition` composed with the `isLHS` side
selection.  Modelled from the spec: `upgradeDefinition` and `isLHS` live in
`-edge-definition`, which is not in the sources; the spec says the schema
provider "resolves both sides of the relationship ... selects the side
matching `(identity.type, field)`", fatally erroring when the provider
cannot determine relationship information. -/
def getDefinition (upgrade : String → String → Option UpgradedMeta) (s : DefCacheState)
    (identifier : StableIdentifier) (propertyName : String) :
    Except String (UpgradedMeta × DefCacheState) :=
  match s.cached identifier.type propertyName with
  | some meta => Except.ok (meta, s)
  | none =>
    let s := { s with upgradeCalls := s.upgradeCalls ++ [(identifier.type, propertyName)] }
    match upgrade identifier.type propertyName with
    | none => Except.error "Could not determine relationship information"
    | some meta =>
      let defs := (alookup s.metaCache identifier.type).getD []
      Except.ok (meta,
        { s with metaCache := aset s.metaCache identifier.type (aset defs propertyName meta) })

/-- A sequence of `getDefinition` calls, keeping only the evolving cache
state (a failure is fatal and aborts the run). -/
def runGetDefinitions (upgrade : String → String → Option UpgradedMeta) (s : DefCacheState)
    (queries : List (StableIdentifier × String)) : Except String DefCacheState :=
  queries.foldlM
    (fun s q => (getDefinition upgrade s q.1 q.2).map Prod.snd) s

/-- How many times `upgradeDefinition` has run for one (type, field) pair. -/
def upgradeCount (s : DefCacheState) (type propertyName : String) : Nat :=
  (s.upgradeCalls.filter (fun q => decide (q = (type, propertyName)))).length

end DefCacheState

/- ### Node Registry, Edge Variants and the Dematerialization Engine -/

/-- The shared edge bookkeeping flags (the `state` object of resource and
collection edges). -/
structure RelationshipState where
  isEmpty : Bool
  hasReceivedData : Bool
  hasDematerializedInverse : Bool
  isStale : Bool
deriving DecidableEq, Repr

/-- A to-one edge (`ResourceEdge` from `edges/resource`). -/
structure ResourceEdge where
  definition : UpgradedMeta
  identifier : StableIdentifier
  localState : Option StableIdentifier
  remoteState : Option StableIdentifier
  state : RelationshipState
deriving DecidableEq, Repr

/-- A to-many edge (`CollectionEdge` from `edges/collection`): ordered
local/remote sequences plus the mirroring membership sets. -/
structure CollectionEdge where
  definition : UpgradedMeta
  identifier : StableIdentifier
  localState : List StableIdentifier
  remoteState : List StableIdentifier
  localMembers : List StableIdentifier
  remoteMembers : List StableIdentifier
  state : RelationshipState
deriving DecidableEq, Repr

/-- An implicit (inverse-only bookkeeping) edge (`ImplicitEdge` from
`edges/implicit`). -/
structure ImplicitEdge where
  definition : UpgradedMeta
  identifier : StableIdentifier
  localMembers : List StableIdentifier
  remoteMembers : List StableIdentifier
deriving DecidableEq, Repr

/-- The `GraphEdge` tagged union of the three edge variants. -/
inductive GraphEdge where
  | resource (e : ResourceEdge)
  | collection (e : CollectionEdge)
  | implicitEdge (e : ImplicitEdge)
deriving DecidableEq, Repr

namespace GraphEdge

/-- The edge's owning identifier. -/
def identifier : GraphEdge → StableIdentifier
  | resource e => e.identifier
  | collection e => e.identifier
  | implicitEdge e => e.identifier

/-- The edge's resolved definition. -/
def definition : GraphEdge → UpgradedMeta
  | resource e => e.definition
  | collection e => e.definition
  | implicitEdge e => e.definition

end GraphEdge

/-- Helper `isImplicit` from `-utils` (tag check over the closed union). -/
def isImplicit : GraphEdge → Bool
  | GraphEdge.implicitEdge _ => true
  | _ => false

/-- Helper `isBelongsTo` from `-utils`. -/
def isBelongsTo : GraphEdge → Bool
  | GraphEdge.resource _ => true
  | _ => false

/-- Helper `isHasMany` from `-utils`. -/
def isHasMany : GraphEdge → Bool
  | GraphEdge.collection _ => true
  | _ => false

/-- A node: the map from field name to edge for one identifier.  A key
bound to `none` models a key whose value is `undefined` (a dematerialized
implicit-edge placeholder, or a slot nulled by `deleteRecord`). -/
abbrev GraphNode : Type := List (String × Option GraphEdge)

/-- The registry / dematerialization slice of the `Graph` class:
`identifiers` (the node registry), the `_removing` reentrancy guard, and a
log of emitted change notifications. -/
structure GraphModel where
  identifiers : List (StableIdentifier × GraphNode)
  removing : Option StableIdentifier
  notifications : List (StableIdentifier × String)
deriving DecidableEq, Repr

/-- Modelled from the spec: `notifyChange` from `-utils` is not in the
sources; the spec treats it as emitting a change notification for one
(identity, field) pair, so it is embedded as appending to a log. -/
def notifyChange (g : GraphModel) (identifier : StableIdentifier) (key : String) : GraphModel :=
  { g with notifications := g.notifications ++ [(identifier, key)] }

namespace GraphModel

/-- The node for an identifier, if any. -/
def node (g : GraphModel) (identifier : StableIdentifier) : Option GraphNode :=
  alookup g.identifiers identifier

/-- The materialized edge at (identifier, field), if any. -/
def edgeAt (g : GraphModel) (identifier : StableIdentifier) (propertyName : String) :
    Option GraphEdge :=
  match g.node identifier with
  | none => none
  | some relationships =>
    match alookup relationships propertyName with
    | some (some edge) => some edge
    | _ => none

/-- Embeds `Graph.has` (graph.ts:95-101): true iff an edge for the pair has been
materialized (`relationships[propertyName] !== undefined`). -/
def has (g : GraphModel) (identifier : StableIdentifier) (propertyName : String) : Bool :=
  match g.node identifier with
  | none => false
  | some relationships =>
    match alookup relationships propertyName with
    | some (some _) => true
    | _ => false

/-- Store an edge at (identifier, field).  In JavaScript the edge objects
are mutated in place; writing the updated edge back to the slot it was read
from embeds that.  A write to an identifier with no node is a no-op (every
call site is guarded by `has`/node existence). -/
def setEdge (g : GraphModel) (identifier : StableIdentifier) (key : String) (edge : GraphEdge) :
    GraphModel :=
  match g.node identifier with
  | none => g
  | some relationships =>
    { g with identifiers := aset g.identifiers identifier (aset relationships key (some edge)) }

/-- Set a node slot to `undefined` (`relationships[key] = undefined`). -/
def clearSlot (g : GraphModel) (identifier : StableIdentifier) (key : String) : GraphModel :=
  match g.node identifier with
  | none => g
  | some relationships =>
    { g with identifiers := aset g.identifiers identifier (aset relationships key none) }

/-- Embeds `Graph.isReleasable` (graph.ts:219-250): an identifier with no node is
releasable; otherwise it is not releasable iff some materialized edge's
definition has an asynchronous inverse while the identifier is persisted
(slots holding `undefined` — previously unloaded relationships — are
skipped). -/
def isReleasable (g : GraphModel) (identifier : StableIdentifier) : Bool :=
  match g.node identifier with
  | none => true
  | some relationships =>
    relationships.all (fun p =>
      match p.2 with
      | none => true
      | some relationship => !(relationship.definition.inverseIsAsync && !isNew identifier))

end GraphModel

/-- Modelled from the spec: `forAllRelatedIdentifiers` from `-utils` is not
in the sources.  The spec's destroy protocol runs "for every related
identity on the edge"; we collect, without duplicates, the local then
remote pointer (to-one) or members (to-many / implicit). -/
def relatedIdentifiers : GraphEdge → List StableIdentifier
  | GraphEdge.resource e =>
    match e.localState, e.remoteState with
    | some a, some b => if a = b then [a] else [a, b]
    | some a, none => [a]
    | none, some b => [b]
    | none, none => []
  | GraphEdge.collection e =>
    e.localMembers ++ e.remoteMembers.filter (fun x => !(e.localMembers.contains x))
  | GraphEdge.implicitEdge e =>
    e.localMembers ++ e.remoteMembers.filter (fun x => !(e.localMembers.contains x))

/-- Modelled from the spec: `removeIdentifierCompletelyFromRelationship`
from `-utils` is not in the sources.  The spec calls it the "complete-removal
primitive": the inverse "is told to drop this identity completely (not
merely dematerialize)", so the identity is erased from every pointer,
sequence and membership set of the edge. -/
def removeIdentifierCompletelyFromRelationship (edge : GraphEdge) (value : StableIdentifier) :
    GraphEdge :=
  match edge with
  | GraphEdge.resource e =>
    GraphEdge.resource
      { e with
        remoteState := if e.remoteState = some value then none else e.remoteState,
        localState := if e.localState = some value then none else e.localState }
  | GraphEdge.collection e =>
    GraphEdge.collection
      { e with
        remoteMembers := e.remoteMembers.filter (fun x => decide (x ≠ value)),
        localMembers := e.localMembers.filter (fun x => decide (x ≠ value)),
        remoteState := e.remoteState.filter (fun x => decide (x ≠ value)),
        localState := e.localState.filter (fun x => decide (x ≠ value)) }
  | GraphEdge.implicitEdge e =>
    GraphEdge.implicitEdge
      { e with
        remoteMembers := e.remoteMembers.filter (fun x => decide (x ≠ value)),
        localMembers := e.localMembers.filter (fun x => decide (x ≠ value)) }

/-- Embeds `rel.state.isStale = true` (graph.ts:511). -/
def setStale : GraphEdge → GraphEdge
  | GraphEdge.resource r => GraphEdge.resource { r with state := { r.state with isStale := true } }
  | GraphEdge.collection c =>
    GraphEdge.collection { c with state := { c.state with isStale := true } }
  | GraphEdge.implicitEdge i => GraphEdge.implicitEdge i

/-- Embeds `clearRelationship` (graph.ts:549-561): a to-one edge's pointers are
nulled with `hasReceivedData := false, isEmpty := true`; a to-many edge's
sequences and membership sets are emptied.  (The source only receives
non-implicit edges here; an implicit edge passes through unchanged.) -/
def clearRelationship : GraphEdge → GraphEdge
  | GraphEdge.resource r =>
    GraphEdge.resource
      { r with
        localState := none,
        remoteState := none,
        state := { r.state with hasReceivedData := false, isEmpty := true } }
  | GraphEdge.collection c =>
    GraphEdge.collection
      { c with localMembers := [], remoteMembers := [], localState := [], remoteState := [] }
  | GraphEdge.implicitEdge i => GraphEdge.implicitEdge i

/-- Embeds `removeDematerializedInverse` (graph.ts:563-612).  Given the inverse
edge and the identity being dematerialized: a to-one edge takes the
client-side-delete branch when it is synchronous or its `localState` is an
unpersisted identity, clearing the pointers that equal its `localState`
(marking `hasReceivedData := true, isEmpty := true` when the remote pointer
was cleared); otherwise it only sets `hasDematerializedInverse`.  A to-many
edge severs the member completely when synchronous or when the
dematerialized identity is unpersisted; otherwise it only sets
`hasDematerializedInverse`.  Either way a change notification is emitted
for the edge's own pair unless silenced.  Returns the updated graph and the
updated edge (mutated in place in the source). -/
def removeDematerializedInverse (g : GraphModel) (relationship : GraphEdge)
    (inverseIdentifier : StableIdentifier) (silenceNotifications : Bool) :
    GraphModel × GraphEdge :=
  match relationship with
  | GraphEdge.resource r =>
    let localInverse := r.localState
    let r :=
      if !r.definition.isAsync
          || (match localInverse with
              | some li => isNew li
              | none => false) then
        let r :=
          if r.localState = localInverse ∧ localInverse ≠ none then { r with localState := none }
          else r
        if r.remoteState = localInverse ∧ localInverse ≠ none then
          let r :=
            { r with
              remoteState := none,
              state := { r.state with hasReceivedData := true, isEmpty := true } }
          match r.localState with
          | some ls => if !(isNew ls) then { r with localState := none } else r
          | none => r
        else r
      else
        { r with state := { r.state with hasDematerializedInverse := true } }
    let g := if !silenceNotifications then notifyChange g r.identifier r.definition.key else g
    (g, GraphEdge.resource r)
  | GraphEdge.collection c =>
    if !c.definition.isAsync || isNew inverseIdentifier then
      let e := removeIdentifierCompletelyFromRelationship (GraphEdge.collection c) inverseIdentifier
      let g := if !silenceNotifications then notifyChange g c.identifier c.definition.key else g
      (g, e)
    else
      let c := { c with state := { c.state with hasDematerializedInverse := true } }
      let g := if !silenceNotifications then notifyChange g c.identifier c.definition.key else g
      (g, GraphEdge.collection c)
  | GraphEdge.implicitEdge i =>
    -- the caller asserts the edge is not implicit; this arm is unreachable
    -- and passes the edge through
    (g, GraphEdge.implicitEdge i)

/-- Embeds `notifyInverseOfDematerialization` (graph.ts:528-547): no-op when the
inverse edge was never materialized; otherwise proceed unless a to-one
inverse already points at a different identity (superseded). -/
def notifyInverseOfDematerialization (g : GraphModel) (inverseIdentifier : StableIdentifier)
    (inverseKey : String) (identifier : StableIdentifier) (silenceNotifications : Bool) :
    GraphModel :=
  if !(g.has inverseIdentifier inverseKey) then g
  else
    match g.edgeAt inverseIdentifier inverseKey with
    | none => g
    | some relationship =>
      let proceed : Bool :=
        match relationship with
        | GraphEdge.resource r =>
          decide (r.localState = none) || decide (r.localState = some identifier)
        | _ => true
      if proceed then
        let p := removeDematerializedInverse g relationship identifier silenceNotifications
        (p.1).setEdge inverseIdentifier inverseKey p.2
      else g

/-- Embeds `removeCompletelyFromInverse` (graph.ts:614-640): tell every related
inverse edge to drop this identity completely, then clear the edge itself
(for a synchronous to-one or to-many; a to-one additionally always nulls
`localState`, a synchronous to-many notifies its own pair, and an implicit
edge empties both membership sets). -/
def removeCompletelyFromInverse (g : GraphModel) (relationship : GraphEdge) :
    GraphModel × GraphEdge :=
  let identifier := relationship.identifier
  let inverseKey := relationship.definition.inverseKey
  let g :=
    (relatedIdentifiers relationship).foldl
      (fun g inverseIdentifier =>
        if g.has inverseIdentifier inverseKey then
          match g.edgeAt inverseIdentifier inverseKey with
          | some e =>
            g.setEdge inverseIdentifier inverseKey
              (removeIdentifierCompletelyFromRelationship e identifier)
          | none => g
        else g) g
  match relationship with
  | GraphEdge.resource r =>
    let e :=
      if !r.definition.isAsync then clearRelationship (GraphEdge.resource r)
      else GraphEdge.resource r
    let e :=
      match e with
      | GraphEdge.resource r2 => GraphEdge.resource { r2 with localState := none }
      | x => x
    (g, e)
  | GraphEdge.collection c =>
    if !c.definition.isAsync then
      let e := clearRelationship (GraphEdge.collection c)
      let g := notifyChange g c.identifier c.definition.key
      (g, e)
    else (g, GraphEdge.collection c)
  | GraphEdge.implicitEdge i =>
    (g, GraphEdge.implicitEdge { i with remoteMembers := [], localMembers := [] })

/-- Embeds `destroyRelationship` (graph.ts:487-526): an implicit edge severs all
inverse references iff its identifier is releasable; a declared edge first
notifies every related inverse of the dematerialization (unless the inverse
is implicit), then — when the inverse is neither implicit nor asynchronous —
is marked stale, cleared, and (for a synchronous field, unless silenced)
notified on its own pair. -/
def destroyRelationship (g : GraphModel) (rel : GraphEdge) (silenceNotifications : Bool) :
    GraphModel × GraphEdge :=
  if isImplicit rel then
    if g.isReleasable rel.identifier then removeCompletelyFromInverse g rel
    else (g, rel)
  else
    let identifier := rel.identifier
    let inverseKey := rel.definition.inverseKey
    let g :=
      if !rel.definition.inverseIsImplicit then
        (relatedIdentifiers rel).foldl
          (fun g inverseIdentifier =>
            notifyInverseOfDematerialization g inverseIdentifier inverseKey identifier
              silenceNotifications) g
      else g
    if !rel.definition.inverseIsImplicit && !rel.definition.inverseIsAsync then
      let rel := clearRelationship (setStale rel)
      let g :=
        if !rel.definition.isAsync && !silenceNotifications then
          notifyChange g rel.identifier rel.definition.key
        else g
      (g, rel)
    else (g, rel)

/-- Embeds `Graph.unload` (graph.ts:252-274): run the destroy protocol for every
edge of the node (iterating a snapshot of the node's keys and re-reading
each slot), writing the updated edge back and additionally nulling the slot
of implicit edges (soft placeholder, eligible for recreation). -/
def GraphModel.unload (g : GraphModel) (identifier : StableIdentifier)
    (silenceNotifications : Bool) : GraphModel :=
  match g.node identifier with
  | none => g
  | some relationships =>
    let keys := relationships.map Prod.fst
    keys.foldl
      (fun g key =>
        match g.edgeAt identifier key with
        | none => g
        | some rel =>
          let p := destroyRelationship g rel silenceNotifications
          if isImplicit p.2 then (p.1).clearSlot identifier key
          else (p.1).setEdge identifier key p.2) g

/-- Embeds `Graph.remove` (graph.ts:276-286): assert no removal is in progress,
mark this one in progress, `unload`, delete the node from the registry,
clear the in-progress marker. -/
def GraphModel.remove (g : GraphModel) (identifier : StableIdentifier) :
    Except String GraphModel :=
  if g.removing.isSome then
    Except.error "Cannot remove identifier while still removing another"
  else
    let g := { g with removing := some identifier }
    let g := g.unload identifier false
    let g := { g with identifiers := aerase g.identifiers identifier }
    Except.ok { g with removing := none }

/-- Does this edge carry a reference to `x` in any pointer, sequence or
membership set? -/
def edgeReferences : GraphEdge → StableIdentifier → Bool
  | GraphEdge.resource r, x => decide (r.localState = some x) || decide (r.remoteState = some x)
  | GraphEdge.collection c, x =>
    c.localState.contains x || c.remoteState.contains x || c.localMembers.contains x ||
      c.remoteMembers.contains x
  | GraphEdge.implicitEdge i, x => i.localMembers.contains x || i.remoteMembers.contains x

/-- Does any materialized edge anywhere in the graph reference `x`? -/
def GraphModel.referencesIdentifier (g : GraphModel) (x : StableIdentifier) : Bool :=
  g.identifiers.any (fun node =>
    node.2.any (fun slot =>
      match slot.2 with
      | some e => edgeReferences e x
      | none => false))

/-- The edge's bookkeeping flags (implicit edges have none; they read as
all-false). -/
def edgeState : GraphEdge → RelationshipState
  | GraphEdge.resource r => r.state
  | GraphEdge.collection c => c.state
  | GraphEdge.implicitEdge _ => ⟨false, false, false, false⟩

/-- Both state layers and membership sets of the edge are empty. -/
def edgeCleared : GraphEdge → Bool
  | GraphEdge.resource r => decide (r.localState = none) && decide (r.remoteState = none)
  | GraphEdge.collection c =>
    c.localState.isEmpty && c.remoteState.isEmpty && c.localMembers.isEmpty &&
      c.remoteMembers.isEmpty
  | GraphEdge.implicitEdge i => i.localMembers.isEmpty && i.remoteMembers.isEmpty

/- ### Concrete instances used by witnesses and counterexamples -/

/-- A persisted post. -/
def postA : StableIdentifier := ⟨"post", 1, false⟩

/-- A persisted user. -/
def userB : StableIdentifier := ⟨"user", 2, false⟩

/-- A client-created (never persisted) user. -/
def userNew : StableIdentifier := ⟨"user", 3, true⟩

/-- Definition of an asynchronous to-one `post.editor` whose inverse side is
implicit. -/
def editorMeta : UpgradedMeta :=
  ⟨RelKind.belongsTo, "editor", "implicitPosts", true, false, false, true⟩

/-- Definition of the implicit inverse side of `post.editor` (its inverse —
the declared side — is asynchronous). -/
def implicitPostsMeta : UpgradedMeta :=
  ⟨RelKind.implicit, "implicitPosts", "editor", false, true, true, false⟩

/-- Definition of a synchronous to-many `post.comments` with declared
synchronous inverse `comment.post`. -/
def commentsMeta : UpgradedMeta :=
  ⟨RelKind.hasMany, "comments", "post", false, false, false, false⟩

/-- Edge `post:1 . editor`: an asynchronous to-one edge pointing at `user:2` in
both state layers. -/
def editorResource : ResourceEdge :=
  ⟨editorMeta, postA, some userB, some userB, ⟨false, true, false, false⟩⟩

/-- The same edge as a `GraphEdge`. -/
def editorEdge : GraphEdge := GraphEdge.resource editorResource

/-- Node `user:2` has this implicit inverse bookkeeping edge listing `post:1`. -/
def implicitPostsEdge : GraphEdge :=
  GraphEdge.implicitEdge ⟨implicitPostsMeta, userB, [postA], [postA]⟩

/-- A two-node graph: `post:1 . editor → user:2` (async) with `user:2`'s
implicit inverse listing `post:1`. -/
def asyncGraph : GraphModel :=
  ⟨[(postA, [("editor", some editorEdge)]), (userB, [("implicitPosts", some implicitPostsEdge)])],
    none, []⟩

/-- The graph left after `remove(user:2)` on `asyncGraph` (the `Except` is
peeled off; removal succeeds there). -/
def asyncGraphRemoved : GraphModel :=
  (GraphModel.remove asyncGraph userB).toOption.getD asyncGraph

/-- An asynchronous to-one edge whose `localState` is empty while its
`remoteState` holds the never-persisted `user:3`. -/
def remoteOnlyNewEdge : ResourceEdge :=
  ⟨editorMeta, postA, none, some userNew, ⟨false, true, false, false⟩⟩

/-- The empty graph. -/
def blankGraph : GraphModel := ⟨[], none, []⟩

/-- A synchronous to-many edge (`post:1 . comments`) holding `user:2`,
whose inverse edges are nowhere materialized. -/
def commentsEdge : GraphEdge :=
  GraphEdge.collection ⟨commentsMeta, postA, [userB], [userB], [userB], [userB],
    ⟨false, true, false, false⟩⟩

/-- A node for `user:2` with a single materialized async-inverse edge. -/
def asyncInverseNode : GraphNode := [("implicitPosts", some implicitPostsEdge)]

/-- A graph whose only node is `user:2` with one async-inverse edge. -/
def releasableGraph1 : GraphModel := ⟨[(userB, asyncInverseNode)], none, []⟩

/-- The same single async-inverse edge owned by the never-persisted
`user:3`. -/
def releasableGraph2 : GraphModel :=
  ⟨[(userNew, [("implicitPosts",
      some (GraphEdge.implicitEdge ⟨implicitPostsMeta, userNew, [postA], [postA]⟩))])], none, []⟩

/-- A graph whose only node holds one dematerialized implicit-edge
placeholder (`undefined` slot) — "implicit edges pointing nowhere". -/
def releasableGraph3 : GraphModel := ⟨[(userB, [("implicitPosts", none)])], none, []⟩

/-- A scheduler state with nothing pending and nothing scheduled. -/
def freshScheduler : SchedulerState := ⟨[], [], [], false, false, 0, 0, none, [], [], []⟩

/-- A kind resolution with one to-many field (`comments`); everything else
resolves to to-one. -/
def kindOfExample : String → String → RelKind := fun _ field =>
  if field = "comments" then RelKind.hasMany else RelKind.belongsTo

/-- A queued remote deletion of `user:2`. -/
def deleteOpExample : RemoteOp := ⟨RemoteOpName.deleteRecord, userB, ""⟩

/-- A queued remote to-many payload for `post:1 . comments`. -/
def hasManyOpExample : RemoteOp := ⟨RemoteOpName.updateRelationship, postA, "comments"⟩

/-- A queued remote to-one replacement for `post:1 . editor`. -/
def belongsToOpExample : RemoteOp := ⟨RemoteOpName.replaceRelatedRecord, postA, "editor"⟩

/-- The scheduler state after pushing hasMany, belongsTo, delete, hasMany in
that order onto `freshScheduler` (all four pushes succeed). -/
def pushedScheduler : SchedulerState :=
  (SchedulerState.pushAll kindOfExample freshScheduler
    [hasManyOpExample, belongsToOpExample, deleteOpExample, hasManyOpExample]).toOption.getD
    freshScheduler

/-- A transaction state with no open transaction and no touched edges. -/
def freshTx : TxState := ⟨[], none⟩

/-- An external schema resolution that knows `post.editor` and nothing
else. -/
def upgradeExample : String → String → Option UpgradedMeta := fun type field =>
  if type = "post" ∧ field = "editor" then some editorMeta else none

/-- The empty definition cache (as built by the `Graph` constructor). -/
def freshDefCache : DefCacheState := ⟨[], []⟩

/-- The cache state after resolving `post.editor` once from scratch. -/
def defCacheOnce : DefCacheState :=
  ⟨[("post", [("editor", editorMeta)])], [("post", "editor")]⟩

/-- The cache state after resolving `post.editor` twice from scratch. -/
def defCacheTwice : DefCacheState :=
  (DefCacheState.runGetDefinitions upgradeExample freshDefCache
    [(postA, "editor"), (postA, "editor")]).toOption.getD freshDefCache

/- ### Shared lemmas about the association-list embedding -/

theorem alookup_aset_self {α β : Type} [DecidableEq α] (l : List (α × β)) (a : α) (b : β) :
    alookup (aset l a b) a = some b := by
  induction l with
  | nil => simp [aset, alookup]
  | cons hd tl ih =>
    obtain ⟨k, v⟩ := hd
    by_cases h : k = a
    · simp [aset, alookup, h]
    · simp [aset, alookup, h, ih]

theorem alookup_aset_ne {α β : Type} [DecidableEq α] (l : List (α × β)) (a k : α) (b : β)
    (h : k ≠ a) : alookup (aset l a b) k = alookup l k := by
  have h2 : a ≠ k := Ne.symm h
  induction l with
  | nil => simp [aset, alookup, h2]
  | cons hd tl ih =>
    obtain ⟨k2, v⟩ := hd
    by_cases hk : k2 = a
    · subst hk
      simp [aset, alookup, h2]
    · simp only [aset, if_neg hk]
      by_cases h3 : k2 = k
      · simp [alookup, h3]
      · simp [alookup, h3, ih]

theorem alookup_aerase_self {α β : Type} [DecidableEq α] (l : List (α × β)) (a : α) :
    alookup (aerase l a) a = none := by
  induction l with
  | nil => simp [aerase, alookup]
  | cons hd tl ih =>
    obtain ⟨k, v⟩ := hd
    by_cases h : k = a
    · simpa [aerase, h] using ih
    · simpa [aerase, alookup, h] using ih

theorem contains_filter_ne {α : Type} [DecidableEq α] (l : List α) (x : α) :
    (l.filter (fun y => decide (y ≠ x))).contains x = false := by
  induction l with
  | nil => rfl
  | cons hd tl ih =>
    by_cases h : hd = x
    · simp [List.filter_cons, h, ih]
    · have hx : (x == hd) = false := by
        rw [beq_eq_false_iff_ne]
        exact Ne.symm h
      simp [List.filter_cons, h, List.contains_cons, hx, ih, Ne.symm h]

/- ### C10 — spurious flush invocations are no-ops -/

/-- C10: Calling `_flushRemoteQueue` when no remote flush is pending
(`_willSyncRemote` is false) returns immediately without opening a
transaction, draining any queue, or modifying any graph state; likewise
`_flushLocalQueue` when `_willSyncLocal` is false returns without touching
any edge — a spurious flush invocation changes nothing. -/
theorem flush_is_noop_when_not_scheduled (s : SchedulerState) :
    (s.willSyncRemote = false → SchedulerState.flushRemoteQueue s = s) ∧
    (s.willSyncLocal = false → SchedulerState.flushLocalQueue s = s) := by
  constructor
  · intro h
    unfold SchedulerState.flushRemoteQueue
    simp [h]
  · intro h
    unfold SchedulerState.flushLocalQueue
    simp [h]

/-- Witness for C10 at the fresh scheduler state. -/
theorem flush_is_noop_when_not_scheduled_witness :
    SchedulerState.flushRemoteQueue freshScheduler = freshScheduler ∧
    SchedulerState.flushLocalQueue freshScheduler = freshScheduler :=
  ⟨(flush_is_noop_when_not_scheduled freshScheduler).1 rfl,
   (flush_is_noop_when_not_scheduled freshScheduler).2 rfl⟩

/- ### Scheduler lemmas (push classification and flush draining) -/

theorem push_ok {kindOf : String → String → RelKind} {s s1 : SchedulerState} {op : RemoteOp}
    (h : SchedulerState.push kindOf s op = Except.ok s1) :
    s1.deletions = s.deletions ++ (if isDeletionOp op then [op] else []) ∧
    s1.hasMany = s.hasMany ++ (if isHasManyOp kindOf op then [op] else []) ∧
    s1.belongsTo = s.belongsTo ++ (if isBelongsToOp kindOf op then [op] else []) ∧
    s1.willSyncRemote = true ∧
    s1.scheduledCoalesce = s.scheduledCoalesce + (if s.willSyncRemote then 0 else 1) ∧
    s1.applied = s.applied ∧
    s1.transaction = s.transaction := by
  unfold SchedulerState.push at h
  cases hop : op.op with
  | deleteRecord =>
    rw [hop] at h
    simp at h
    cases hw : s.willSyncRemote
    · simp [hw, pure, Except.pure] at h
      subst h
      simp [isDeletionOp, isHasManyOp, isBelongsToOp, hop, hw]
    · simp [hw, pure, Except.pure] at h
      subst h
      simp [isDeletionOp, isHasManyOp, isBelongsToOp, hop, hw]
  | replaceRelatedRecord =>
    rw [hop] at h
    simp at h
    cases hw : s.willSyncRemote
    · simp [hw, pure, Except.pure] at h
      subst h
      simp [isDeletionOp, isHasManyOp, isBelongsToOp, hop, hw]
    · simp [hw, pure, Except.pure] at h
      subst h
      simp [isDeletionOp, isHasManyOp, isBelongsToOp, hop, hw]
  | replaceRelatedRecords =>
    rw [hop] at h
    simp at h
    cases hk : kindOf op.record.type op.field
    · rw [hk] at h
      simp at h
      cases hw : s.willSyncRemote
      · simp [hw, pure, Except.pure] at h
        subst h
        simp [isDeletionOp, isHasManyOp, isBelongsToOp, hop, hw, hk]
      · simp [hw, pure, Except.pure] at h
        subst h
        simp [isDeletionOp, isHasManyOp, isBelongsToOp, hop, hw, hk]
    · rw [hk] at h
      simp at h
      cases hw : s.willSyncRemote
      · simp [hw, pure, Except.pure] at h
        subst h
        simp [isDeletionOp, isHasManyOp, isBelongsToOp, hop, hw, hk]
      · simp [hw, pure, Except.pure] at h
        subst h
        simp [isDeletionOp, isHasManyOp, isBelongsToOp, hop, hw, hk]
    · rw [hk] at h
      simp [Bind.bind, Except.bind] at h
  | updateRelationship =>
    rw [hop] at h
    simp at h
    cases hk : kindOf op.record.type op.field
    · rw [hk] at h
      simp at h
      cases hw : s.willSyncRemote
      · simp [hw, pure, Except.pure] at h
        subst h
        simp [isDeletionOp, isHasManyOp, isBelongsToOp, hop, hw, hk]
      · simp [hw, pure, Except.pure] at h
        subst h
        simp [isDeletionOp, isHasManyOp, isBelongsToOp, hop, hw, hk]
    · rw [hk] at h
      simp at h
      cases hw : s.willSyncRemote
      · simp [hw, pure, Except.pure] at h
        subst h
        simp [isDeletionOp, isHasManyOp, isBelongsToOp, hop, hw, hk]
      · simp [hw, pure, Except.pure] at h
        subst h
        simp [isDeletionOp, isHasManyOp, isBelongsToOp, hop, hw, hk]
    · rw [hk] at h
      simp [Bind.bind, Except.bind] at h

theorem pushAll_ok {kindOf : String → String → RelKind} :
    ∀ (ops : List RemoteOp) (s s1 : SchedulerState),
      SchedulerState.pushAll kindOf s ops = Except.ok s1 →
      s1.deletions = s.deletions ++ ops.filter isDeletionOp ∧
      s1.hasMany = s.hasMany ++ ops.filter (isHasManyOp kindOf) ∧
      s1.belongsTo = s.belongsTo ++ ops.filter (isBelongsToOp kindOf) ∧
      s1.applied = s.applied ∧
      s1.transaction = s.transaction ∧
      s1.willSyncRemote = (s.willSyncRemote || !ops.isEmpty) ∧
      s1.scheduledCoalesce =
        s.scheduledCoalesce + (if s.willSyncRemote || ops.isEmpty then 0 else 1)
  | [], s, s1, h => by
    simp [SchedulerState.pushAll, List.foldlM, pure, Except.pure] at h
    subst h
    simp
  | op :: rest, s, s1, h => by
    rw [SchedulerState.pushAll, List.foldlM_cons] at h
    cases hp : SchedulerState.push kindOf s op with
    | error e =>
      rw [hp] at h
      simp [Bind.bind, Except.bind] at h
    | ok s2 =>
      rw [hp] at h
      simp only [Bind.bind, Except.bind] at h
      obtain ⟨ihd, ihh, ihb, iha, iht, ihw, ihc⟩ := pushAll_ok rest s2 s1 h
      obtain ⟨pd, ph, pb, pw, pc, pa, pt⟩ := push_ok hp
      refine ⟨?_, ?_, ?_, ?_, ?_, ?_, ?_⟩
      · rw [ihd, pd, List.filter_cons]
        by_cases hc : isDeletionOp op <;> simp [hc]
      · rw [ihh, ph, List.filter_cons]
        by_cases hc : isHasManyOp kindOf op <;> simp [hc]
      · rw [ihb, pb, List.filter_cons]
        by_cases hc : isBelongsToOp kindOf op <;> simp [hc]
      · rw [iha, pa]
      · rw [iht, pt]
      · rw [ihw, pw]
        simp
      · rw [ihc, pc, pw]
        cases hw : s.willSyncRemote <;> simp [hw]

theorem foldl_applyRemote (l : List RemoteOp) (s : SchedulerState) :
    l.foldl SchedulerState.applyRemote s = { s with applied := s.applied ++ l } := by
  induction l generalizing s with
  | nil => simp
  | cons op rest ih =>
    rw [List.foldl_cons, ih]
    simp [SchedulerState.applyRemote]

theorem flushRemoteQueue_pending (s : SchedulerState) (h : s.willSyncRemote = true) :
    SchedulerState.flushRemoteQueue s =
      { s with
        willSyncRemote := false, deletions := [], hasMany := [], belongsTo := [],
        transaction := none,
        applied := s.applied ++ s.deletions ++ s.hasMany ++ s.belongsTo } := by
  unfold SchedulerState.flushRemoteQueue
  simp [h, foldl_applyRemote, SchedulerState.finalize]

/- ### C1 — remote flush drains the queues and applies deletions, then
hasMany, then belongsTo -/

/-- C1: For every batch of remote operations pushed before a flush,
`_flushRemoteQueue` drains and clears the three pending queues and then
applies all queued `deleteRecord` operations first, then all hasMany
updates, then all belongsTo updates, each via `update` in remote mode
(the `applied` log records exactly those invocations in order), regardless
of the order in which the operations were pushed: the applied sequence is
always the deletions subsequence, then the hasMany subsequence, then the
belongsTo subsequence of the pushed batch.  The flush also leaves the
pending flag cleared and the transaction finalized. -/
theorem flushRemoteQueue_applies_in_category_order
    (kindOf : String → String → RelKind) (s0 s1 : SchedulerState) (ops : List RemoteOp)
    (hq1 : s0.deletions = []) (hq2 : s0.hasMany = []) (hq3 : s0.belongsTo = [])
    (hw : s0.willSyncRemote = false) (hne : ops ≠ [])
    (hpush : SchedulerState.pushAll kindOf s0 ops = Except.ok s1) :
    (SchedulerState.flushRemoteQueue s1).applied =
        s0.applied ++ ops.filter isDeletionOp ++ ops.filter (isHasManyOp kindOf)
          ++ ops.filter (isBelongsToOp kindOf) ∧
    (SchedulerState.flushRemoteQueue s1).deletions = [] ∧
    (SchedulerState.flushRemoteQueue s1).hasMany = [] ∧
    (SchedulerState.flushRemoteQueue s1).belongsTo = [] ∧
    (SchedulerState.flushRemoteQueue s1).transaction = none ∧
    (SchedulerState.flushRemoteQueue s1).willSyncRemote = false := by
  obtain ⟨hd, hh, hb, ha, _, hwr, _⟩ := pushAll_ok ops s0 s1 hpush
  have hw1 : s1.willSyncRemote = true := by
    rw [hwr, hw]
    cases ops with
    | nil => exact absurd rfl hne
    | cons a l => simp
  rw [flushRemoteQueue_pending s1 hw1]
  simp [hd, hh, hb, ha, hq1, hq2, hq3, List.append_assoc]

/-- Witness for C1: pushing hasMany, belongsTo, delete, hasMany in that
order and flushing applies the delete first, then the two hasMany updates,
then the belongsTo update, and leaves the queues empty. -/
theorem flushRemoteQueue_applies_in_category_order_witness :
    (SchedulerState.flushRemoteQueue pushedScheduler).applied =
        freshScheduler.applied
          ++ [hasManyOpExample, belongsToOpExample, deleteOpExample,
              hasManyOpExample].filter isDeletionOp
          ++ [hasManyOpExample, belongsToOpExample, deleteOpExample,
              hasManyOpExample].filter (isHasManyOp kindOfExample)
          ++ [hasManyOpExample, belongsToOpExample, deleteOpExample,
              hasManyOpExample].filter (isBelongsToOp kindOfExample) ∧
    (SchedulerState.flushRemoteQueue pushedScheduler).deletions = [] ∧
    (SchedulerState.flushRemoteQueue pushedScheduler).hasMany = [] ∧
    (SchedulerState.flushRemoteQueue pushedScheduler).belongsTo = [] ∧
    (SchedulerState.flushRemoteQueue pushedScheduler).transaction = none ∧
    (SchedulerState.flushRemoteQueue pushedScheduler).willSyncRemote = false :=
  flushRemoteQueue_applies_in_category_order kindOfExample freshScheduler pushedScheduler
    [hasManyOpExample, belongsToOpExample, deleteOpExample, hasManyOpExample]
    rfl rfl rfl rfl (by simp) (by rfl)

/- ### C6 — pushes within one batch schedule exactly one flush -/

/-- C6: Multiple `push` calls within one tick schedule exactly one deferred
remote flush: starting from a state with no flush scheduled, a nonempty
batch of pushes registers the coalesce callback exactly once, sets the
`_willSyncRemote` gate, and every subsequent push before the flush only
appends to the pending queues without scheduling another flush. -/
theorem push_schedules_exactly_one_flush
    (kindOf : String → String → RelKind) (s0 s1 : SchedulerState) (ops : List RemoteOp)
    (hw : s0.willSyncRemote = false) (hne : ops ≠ [])
    (hpush : SchedulerState.pushAll kindOf s0 ops = Except.ok s1) :
    s1.scheduledCoalesce = s0.scheduledCoalesce + 1 ∧
    s1.willSyncRemote = true ∧
    ∀ (op : RemoteOp) (s2 : SchedulerState),
      SchedulerState.push kindOf s1 op = Except.ok s2 →
      s2.scheduledCoalesce = s1.scheduledCoalesce ∧
      s2.willSyncRemote = true ∧
      s2.deletions = s1.deletions ++ (if isDeletionOp op then [op] else []) ∧
      s2.hasMany = s1.hasMany ++ (if isHasManyOp kindOf op then [op] else []) ∧
      s2.belongsTo = s1.belongsTo ++ (if isBelongsToOp kindOf op then [op] else []) := by
  obtain ⟨_, _, _, _, _, hwr, hc⟩ := pushAll_ok ops s0 s1 hpush
  have hemp : ops.isEmpty = false := by
    cases ops with
    | nil => exact absurd rfl hne
    | cons a l => rfl
  refine ⟨?_, ?_, ?_⟩
  · rw [hc, hw, hemp]
    simp
  · rw [hwr, hw, hemp]
    simp
  · intro op s2 hp2
    obtain ⟨pd, ph, pb, pw, pc, _, _⟩ := push_ok hp2
    have hw1 : s1.willSyncRemote = true := by
      rw [hwr, hw, hemp]
      simp
    exact ⟨by rw [pc, hw1]; simp, pw, pd, ph, pb⟩

/-- Witness for C6 at the example batch: the four pushes register exactly
one coalesce callback, and a fifth push appends without scheduling. -/
theorem push_schedules_exactly_one_flush_witness :
    pushedScheduler.scheduledCoalesce = freshScheduler.scheduledCoalesce + 1 ∧
    pushedScheduler.willSyncRemote = true :=
  have h := push_schedules_exactly_one_flush kindOfExample freshScheduler pushedScheduler
    [hasManyOpExample, belongsToOpExample, deleteOpExample, hasManyOpExample]
    rfl (by simp) (by rfl)
  ⟨h.1, h.2.1⟩

/- ### C7 — transactionRef bookkeeping -/

theorem addToTransaction_ok {s : TxState} {e : Nat} {t : List Nat}
    (h : s.transaction = some t) :
    TxState.addToTransaction s e =
      Except.ok
        { transactionRefs := aset s.transactionRefs e (s.refOf e + 1),
          transaction := some (if t.contains e then t else t ++ [e]) } := by
  unfold TxState.addToTransaction
  rw [h]

theorem addAll_open :
    ∀ (touched : List Nat) (s : TxState) (t0 : List Nat), s.transaction = some t0 →
      ∃ t1, (TxState.addAll s touched).transaction = some t1 ∧
        (∀ x, x ∈ t1 ↔ x ∈ t0 ∨ x ∈ touched) ∧
        (∀ x, x ∉ touched → (TxState.addAll s touched).refOf x = s.refOf x)
  | [], s, t0, h => ⟨t0, by simpa [TxState.addAll] using h, by simp, by simp [TxState.addAll]⟩
  | e :: rest, s, t0, h => by
    have hstep : TxState.addAll s (e :: rest) =
        TxState.addAll
          ⟨aset s.transactionRefs e (s.refOf e + 1),
            some (if t0.contains e then t0 else t0 ++ [e])⟩ rest := by
      rw [TxState.addAll, List.foldl_cons, addToTransaction_ok h]
      rfl
    obtain ⟨t1, htx, hmem, href⟩ := addAll_open rest
      ⟨aset s.transactionRefs e (s.refOf e + 1),
        some (if t0.contains e then t0 else t0 ++ [e])⟩ _ rfl
    refine ⟨t1, by rw [hstep]; exact htx, ?_, ?_⟩
    · intro x
      rw [hmem x]
      by_cases hc : t0.contains e = true
      · rw [if_pos hc]
        have he : e ∈ t0 := List.elem_iff.mp hc
        constructor
        · rintro (hx | hx)
          · exact Or.inl hx
          · exact Or.inr (List.mem_cons_of_mem e hx)
        · rintro (hx | hx)
          · exact Or.inl hx
          · rcases List.mem_cons.mp hx with rfl | hx2
            · exact Or.inl he
            · exact Or.inr hx2
      · rw [if_neg hc]
        constructor
        · rintro (hx | hx)
          · rcases List.mem_append.mp hx with hx2 | hx2
            · exact Or.inl hx2
            · have hxe : x = e := List.mem_singleton.mp hx2
              exact Or.inr (hxe ▸ List.mem_cons_self e rest)
          · exact Or.inr (List.mem_cons_of_mem e hx)
        · rintro (hx | hx)
          · exact Or.inl (List.mem_append.mpr (Or.inl hx))
          · rcases List.mem_cons.mp hx with rfl | hx2
            · exact Or.inl (List.mem_append.mpr (Or.inr (List.mem_singleton.mpr rfl)))
            · exact Or.inr hx2
    · intro x hx
      have hxe : x ≠ e := fun heq => hx (heq ▸ List.mem_cons_self e rest)
      have hxr : x ∉ rest := fun hmem2 => hx (List.mem_cons_of_mem e hmem2)
      rw [hstep, href x hxr]
      show (alookup (aset s.transactionRefs e (s.refOf e + 1)) x).getD 0 = _
      rw [alookup_aset_ne _ _ _ _ hxe]
      rfl

theorem alookup_zeroed (l : List (Nat × Nat)) (t : List Nat) (x : Nat) :
    alookup (l.map (fun p => (p.1, if t.contains p.1 then (0 : Nat) else p.2))) x =
      (alookup l x).map (fun v => if t.contains x then 0 else v) := by
  induction l with
  | nil => rfl
  | cons hd tl ih =>
    obtain ⟨k, v⟩ := hd
    by_cases hk : k = x
    · subst hk
      simp [alookup]
    · simp [alookup, hk]
      simpa using ih

theorem refOf_finalizeTx {s : TxState} {t : List Nat} (h : s.transaction = some t) (x : Nat) :
    (TxState.finalizeTx s).refOf x = if t.contains x then 0 else s.refOf x := by
  unfold TxState.finalizeTx
  rw [h]
  show (alookup (s.transactionRefs.map fun p => (p.1, if t.contains p.1 then 0 else p.2)) x).getD 0
    = _
  rw [alookup_zeroed]
  cases ho : alookup s.transactionRefs x <;> by_cases hc : t.contains x <;>
    simp [TxState.refOf, ho, hc]

/-- C7: An edge's `transactionRef` is zero outside of an in-flight remote
flush: `_addToTransaction` asserts when no transaction set is open and
increments the counter only while one is; when the flush completes,
`_finalize` resets `transactionRef` to zero on every edge that was added to
the transaction and clears the transaction handle to null — so a whole
flush, run while all counters are zero and no transaction is open, ends
with all counters zero and no transaction open. -/
theorem transactionRef_zero_outside_flush :
    (∀ (s : TxState) (e : Nat), s.transaction = none →
        TxState.addToTransaction s e = Except.error "expected a transaction") ∧
    (∀ (s : TxState) (e : Nat) (t : List Nat), s.transaction = some t →
        ∃ s2, TxState.addToTransaction s e = Except.ok s2 ∧
          s2.refOf e = s.refOf e + 1 ∧ s2.transaction.isSome = true) ∧
    (∀ (s : TxState) (t : List Nat), s.transaction = some t →
        (TxState.finalizeTx s).transaction = none ∧
        ∀ e ∈ t, (TxState.finalizeTx s).refOf e = 0) ∧
    (∀ (s : TxState) (touched : List Nat), s.transaction = none → TxState.allRefsZero s →
        (TxState.remoteFlushTx s touched).transaction = none ∧
        TxState.allRefsZero (TxState.remoteFlushTx s touched)) := by
  refine ⟨?_, ?_, ?_, ?_⟩
  · intro s e h
    unfold TxState.addToTransaction
    rw [h]
  · intro s e t h
    refine ⟨_, addToTransaction_ok h, ?_, rfl⟩
    show (alookup (aset s.transactionRefs e (s.refOf e + 1)) e).getD 0 = _
    rw [alookup_aset_self]
    rfl
  · intro s t h
    constructor
    · unfold TxState.finalizeTx
      rw [h]
    · intro e he
      rw [refOf_finalizeTx h e, if_pos (List.elem_iff.mpr he)]
  · intro s touched h hz
    unfold TxState.remoteFlushTx
    obtain ⟨t1, htx, hmem, href⟩ := addAll_open touched
      { s with transaction := some [] } [] rfl
    constructor
    · unfold TxState.finalizeTx
      rw [htx]
    · intro x
      rw [refOf_finalizeTx htx x]
      by_cases hc : t1.contains x
      · rw [if_pos hc]
      · rw [if_neg hc]
        have hx1 : x ∉ t1 := fun hm => hc (List.elem_iff.mpr hm)
        have hx2 : x ∉ touched := fun hm => hx1 ((hmem x).mpr (Or.inr hm))
        rw [href x hx2]
        exact hz x

/-- Witness for C7 at concrete states: adding to a closed transaction
asserts; a flush touching edges 5, 7 and 5 again from the all-zero state
returns to the all-zero, no-transaction state. -/
theorem transactionRef_zero_outside_flush_witness :
    TxState.addToTransaction freshTx 5 = Except.error "expected a transaction" ∧
    (TxState.remoteFlushTx freshTx [5, 7, 5]).transaction = none ∧
    TxState.allRefsZero (TxState.remoteFlushTx freshTx [5, 7, 5]) :=
  have h4 := transactionRef_zero_outside_flush.2.2.2 freshTx [5, 7, 5] rfl (fun _ => rfl)
  ⟨transactionRef_zero_outside_flush.1 freshTx 5 rfl, h4.1, h4.2⟩

/- ### C3 — definition resolution is cached and reference-stable -/

theorem cached_store_self (mc : List (String × List (String × UpgradedMeta)))
    (type f0 : String) (m0 : UpgradedMeta) :
    (alookup (aset mc type (aset ((alookup mc type).getD []) f0 m0)) type).bind
        (fun defs => alookup defs f0) = some m0 := by
  rw [alookup_aset_self]
  show alookup (aset ((alookup mc type).getD []) f0 m0) f0 = some m0
  rw [alookup_aset_self]

theorem cached_store_preserve (mc : List (String × List (String × UpgradedMeta)))
    (type f0 : String) (m0 : UpgradedMeta) (t f : String)
    (h : (alookup mc t).bind (fun defs => alookup defs f) ≠ none) :
    (alookup (aset mc type (aset ((alookup mc type).getD []) f0 m0)) t).bind
        (fun defs => alookup defs f) ≠ none := by
  by_cases ht : t = type
  · subst ht
    rw [alookup_aset_self]
    cases hd : alookup mc t with
    | none => rw [hd] at h; simp at h
    | some defs =>
      rw [hd] at h
      simp only [Option.bind_some, hd, Option.getD_some]
      by_cases hf : f = f0
      · subst hf
        show alookup (aset defs f m0) f ≠ none
        rw [alookup_aset_self]
        simp
      · show alookup (aset defs f0 m0) f ≠ none
        rw [alookup_aset_ne _ _ _ _ hf]
        simpa using h
  · rw [alookup_aset_ne _ _ _ _ ht]
    exact h

theorem filterPair_append (l : List (String × String)) (p : String × String) (t f : String) :
    ((l ++ [p]).filter (fun q => decide (q = (t, f)))).length =
      (l.filter (fun q => decide (q = (t, f)))).length + (if p = (t, f) then 1 else 0) := by
  rw [List.filter_append, List.length_append]
  congr 1
  by_cases h : p = (t, f)
  · simp [List.filter, h]
  · simp [List.filter, h]

theorem filterPair_zero_of_not_mem (l : List (String × String)) (t f : String)
    (h : (t, f) ∉ l) : (l.filter (fun q => decide (q = (t, f)))).length = 0 := by
  have hnil : List.filter (fun q => decide (q = (t, f))) l = [] := by
    apply List.filter_eq_nil_iff.mpr
    intro q hq
    simp only [decide_eq_true_eq]
    intro heq
    exact h (heq ▸ hq)
  rw [hnil]
  rfl

theorem getDefinition_cases {upgrade : String → String → Option UpgradedMeta}
    {s s2 : DefCacheState} {identifier : StableIdentifier} {propertyName : String}
    {meta : UpgradedMeta}
    (h : DefCacheState.getDefinition upgrade s identifier propertyName = Except.ok (meta, s2)) :
    (s.cached identifier.type propertyName = some meta ∧ s2 = s) ∨
    (s.cached identifier.type propertyName = none ∧
      upgrade identifier.type propertyName = some meta ∧
      s2 = { metaCache := aset s.metaCache identifier.type
               (aset ((alookup s.metaCache identifier.type).getD []) propertyName meta),
             upgradeCalls := s.upgradeCalls ++ [(identifier.type, propertyName)] }) := by
  unfold DefCacheState.getDefinition at h
  cases hc : s.cached identifier.type propertyName with
  | some m =>
    rw [hc] at h
    simp at h
    obtain ⟨h1, h2⟩ := h
    subst h1
    exact Or.inl ⟨rfl, h2.symm⟩
  | none =>
    rw [hc] at h
    cases hu : upgrade identifier.type propertyName with
    | none =>
      rw [hu] at h
      simp at h
    | some m =>
      rw [hu] at h
      simp at h
      obtain ⟨h1, h2⟩ := h
      subst h1
      exact Or.inr ⟨rfl, rfl, h2.symm⟩

theorem runGetDefs_at_most_once {upgrade : String → String → Option UpgradedMeta} :
    ∀ (queries : List (StableIdentifier × String)) (s s1 : DefCacheState),
      DefCacheState.runGetDefinitions upgrade s queries = Except.ok s1 →
      (∀ t f, DefCacheState.upgradeCount s t f ≤ 1) →
      (∀ t f, (t, f) ∈ s.upgradeCalls → DefCacheState.cached s t f ≠ none) →
      ∀ t f, DefCacheState.upgradeCount s1 t f ≤ 1
  | [], s, s1, h, h1, _ => by
    simp [DefCacheState.runGetDefinitions, List.foldlM, pure, Except.pure] at h
    exact h ▸ h1
  | q :: rest, s, s1, h, h1, h2 => by
    rw [DefCacheState.runGetDefinitions, List.foldlM_cons] at h
    cases hg : DefCacheState.getDefinition upgrade s q.1 q.2 with
    | error e =>
      rw [hg] at h
      simp [Functor.map, Except.map, Bind.bind, Except.bind] at h
    | ok p =>
      obtain ⟨meta, s2⟩ := p
      rw [hg] at h
      simp only [Functor.map, Except.map, Bind.bind, Except.bind] at h
      rcases getDefinition_cases hg with ⟨_, rfl⟩ | ⟨hc, _, hs2⟩
      · exact runGetDefs_at_most_once rest _ s1 h h1 h2
      · have hcalls : s2.upgradeCalls = s.upgradeCalls ++ [(q.1.type, q.2)] := by rw [hs2]
        apply runGetDefs_at_most_once rest s2 s1 h
        · intro t f
          show (s2.upgradeCalls.filter (fun q2 => decide (q2 = (t, f)))).length ≤ 1
          rw [hcalls, filterPair_append]
          by_cases hp : ((q.1.type, q.2) : String × String) = (t, f)
          · rw [if_pos hp]
            have hnm : (t, f) ∉ s.upgradeCalls := by
              injection hp with hp1 hp2
              subst hp1
              subst hp2
              intro hmem
              exact h2 _ _ hmem hc
            have hz : (s.upgradeCalls.filter (fun q2 => decide (q2 = (t, f)))).length = 0 :=
              filterPair_zero_of_not_mem _ _ _ hnm
            rw [hz]
          · rw [if_neg hp, Nat.add_zero]
            exact h1 t f
        · intro t f hmem
          rw [hcalls] at hmem
          rcases List.mem_append.mp hmem with hmem2 | hmem2
          · have hold := h2 t f hmem2
            rw [hs2]
            exact cached_store_preserve s.metaCache q.1.type q.2 meta t f hold
          · have hpq : ((t, f) : String × String) = (q.1.type, q.2) :=
              List.mem_singleton.mp hmem2
            injection hpq with hp1 hp2
            subst hp1
            subst hp2
            rw [hs2]
            have := cached_store_self s.metaCache q.1.type q.2 meta
            rw [show DefCacheState.cached
                { metaCache := aset s.metaCache q.1.type
                    (aset ((alookup s.metaCache q.1.type).getD []) q.2 meta),
                  upgradeCalls := s.upgradeCalls ++ [(q.1.type, q.2)] } q.1.type q.2 =
              (alookup (aset s.metaCache q.1.type
                  (aset ((alookup s.metaCache q.1.type).getD []) q.2 meta)) q.1.type).bind
                (fun defs => alookup defs q.2) from rfl, this]
            simp

/-- C3: For any (entity type, field) pair, calling `getDefinition` twice
returns the identical cached definition (the second call returns the very
value and state produced by the first, consulting only the cache), and the
external schema resolution (`upgradeDefinition`) is invoked at most once
per pair over any successful run that starts from the freshly constructed
(empty) cache. -/
theorem getDefinition_reference_stable_and_resolved_once :
    (∀ (upgrade : String → String → Option UpgradedMeta) (s s2 : DefCacheState)
        (identifier : StableIdentifier) (propertyName : String) (meta : UpgradedMeta),
      DefCacheState.getDefinition upgrade s identifier propertyName = Except.ok (meta, s2) →
      DefCacheState.getDefinition upgrade s2 identifier propertyName = Except.ok (meta, s2)) ∧
    (∀ (upgrade : String → String → Option UpgradedMeta)
        (queries : List (StableIdentifier × String)) (s1 : DefCacheState),
      DefCacheState.runGetDefinitions upgrade freshDefCache queries = Except.ok s1 →
      ∀ t f, DefCacheState.upgradeCount s1 t f ≤ 1) := by
  constructor
  · intro upgrade s s2 identifier propertyName meta h
    rcases getDefinition_cases h with ⟨hc, rfl⟩ | ⟨_, _, hs2⟩
    · unfold DefCacheState.getDefinition
      rw [hc]
    · unfold DefCacheState.getDefinition
      have hcached : DefCacheState.cached s2 identifier.type propertyName = some meta := by
        rw [hs2]
        exact cached_store_self s.metaCache identifier.type propertyName meta
      rw [hcached]
  · intro upgrade queries s1 h
    exact runGetDefs_at_most_once queries freshDefCache s1 h
      (fun _ _ => Nat.zero_le 1)
      (fun t f hmem => absurd hmem (List.not_mem_nil _))

/-- Witness for C3: resolving `post.editor` twice from the empty cache
returns the identical cached definition both times and runs the external
resolution exactly once. -/
theorem getDefinition_reference_stable_and_resolved_once_witness :
    DefCacheState.getDefinition upgradeExample defCacheOnce postA "editor" =
      Except.ok (editorMeta, defCacheOnce) ∧
    DefCacheState.upgradeCount defCacheTwice "post" "editor" ≤ 1 :=
  ⟨getDefinition_reference_stable_and_resolved_once.1 upgradeExample freshDefCache defCacheOnce
      postA "editor" editorMeta (by rfl),
   getDefinition_reference_stable_and_resolved_once.2 upgradeExample
      [(postA, "editor"), (postA, "editor")] defCacheTwice (by rfl) "post" "editor"⟩

/- ### C5 — release gating -/

/-- C5: `isReleasable` returns true for an identity with no materialized
edges; with a node present it returns false exactly when some materialized
edge's definition has an asynchronous inverse and the identity is not a
client-only (never-persisted) entity.  In particular, an identity with a
single async-inverse edge and `isNew = false` is not releasable, the same
identity with `isNew = true` is releasable, and an identity whose node
holds only dematerialized implicit-edge placeholders (slots pointing
nowhere) is releasable. -/
theorem isReleasable_characterization :
    (∀ (g : GraphModel) (identifier : StableIdentifier),
      g.node identifier = none → g.isReleasable identifier = true) ∧
    (∀ (g : GraphModel) (identifier : StableIdentifier) (rels : GraphNode),
      g.node identifier = some rels →
      (g.isReleasable identifier = false ↔
        ∃ p ∈ rels, ∃ e, p.2 = some e ∧
          e.definition.inverseIsAsync = true ∧ identifier.isNew = false)) ∧
    GraphModel.isReleasable releasableGraph1 userB = false ∧
    GraphModel.isReleasable releasableGraph2 userNew = true ∧
    GraphModel.isReleasable releasableGraph3 userB = true := by
  refine ⟨?_, ?_, by rfl, by rfl, by rfl⟩
  · intro g identifier h
    unfold GraphModel.isReleasable
    rw [h]
  · intro g identifier rels h
    unfold GraphModel.isReleasable
    rw [h]
    rw [List.all_eq_false]
    constructor
    · rintro ⟨p, hp, hf⟩
      refine ⟨p, hp, ?_⟩
      cases hslot : p.2 with
      | none =>
        rw [hslot] at hf
        simp at hf
      | some e =>
        rw [hslot] at hf
        simp [isNew] at hf
        exact ⟨e, rfl, hf.1, hf.2⟩
    · rintro ⟨p, hp, e, hslot, hasync, hnew⟩
      refine ⟨p, hp, ?_⟩
      rw [hslot]
      simp [hasync, isNew, hnew]

/-- Witness for C5: an identity with no node at all is releasable (first
conjunct of the characterization applied at the empty graph). -/
theorem isReleasable_characterization_witness :
    GraphModel.isReleasable blankGraph userB = true :=
  isReleasable_characterization.1 blankGraph userB rfl

/- ### C8 — remove: single in-flight removal, then unload and delete -/

/-- C8: `remove(identifier)` raises the fatal assertion whenever a removal
is already in progress (in particular for a different identity), and
otherwise performs `unload(identifier)` and then deletes the node entirely
from the registry (afterwards no field of the identifier is materialized)
and clears the in-progress marker. -/
theorem remove_single_inflight (g : GraphModel) (identifier : StableIdentifier) :
    (g.removing.isSome = true →
      GraphModel.remove g identifier =
        Except.error "Cannot remove identifier while still removing another") ∧
    (g.removing = none →
      GraphModel.remove g identifier =
        Except.ok
          { GraphModel.unload { g with removing := some identifier } identifier false with
            identifiers :=
              aerase (GraphModel.unload { g with removing := some identifier } identifier
                false).identifiers identifier,
            removing := none } ∧
      ∀ g2, GraphModel.remove g identifier = Except.ok g2 →
        (∀ f, g2.has identifier f = false) ∧ g2.removing = none) := by
  constructor
  · intro h
    unfold GraphModel.remove
    rw [if_pos h]
  · intro h
    have hns : g.removing.isSome = false := by rw [h]; rfl
    have heq : GraphModel.remove g identifier =
        Except.ok
          { GraphModel.unload { g with removing := some identifier } identifier false with
            identifiers :=
              aerase (GraphModel.unload { g with removing := some identifier } identifier
                false).identifiers identifier,
            removing := none } := by
      unfold GraphModel.remove
      rw [hns]
      rfl
    refine ⟨heq, ?_⟩
    intro g2 h2
    rw [heq] at h2
    injection h2 with h2
    constructor
    · intro f
      rw [← h2]
      show GraphModel.has _ identifier f = false
      unfold GraphModel.has GraphModel.node
      rw [show ({ GraphModel.unload { g with removing := some identifier } identifier false with
            identifiers :=
              aerase (GraphModel.unload { g with removing := some identifier } identifier
                false).identifiers identifier,
            removing := none } : GraphModel).identifiers =
          aerase (GraphModel.unload { g with removing := some identifier } identifier
            false).identifiers identifier from rfl]
      rw [alookup_aerase_self]
    · rw [← h2]

/-- Witness for C8: on the example graph with no removal in flight, removal
of `user:2` succeeds, dematerializes every field of `user:2` and resets the
marker; with a removal marked in flight it raises. -/
theorem remove_single_inflight_witness :
    GraphModel.remove { asyncGraph with removing := some postA } userB =
      Except.error "Cannot remove identifier while still removing another" ∧
    (∀ f, GraphModel.has asyncGraphRemoved userB f = false) ∧
    asyncGraphRemoved.removing = none :=
  have h1 := (remove_single_inflight { asyncGraph with removing := some postA } userB).1 rfl
  have h2 := ((remove_single_inflight asyncGraph userB).2 rfl).2 asyncGraphRemoved (by rfl)
  ⟨h1, h2.1, h2.2⟩

/- ### C2 — remove(X): dematerialization of X is complete, but references
to X can survive on other edges -/

/-- Counterexample to C2 as stated: in `asyncGraph`, `post:1 . editor` is an
asynchronous to-one edge pointing at the persisted `user:2`, and `user:2`
carries only the implicit inverse bookkeeping edge.  `remove(user:2)`
succeeds, yet afterwards `post:1 . editor` still references `user:2` in both
state layers (the async dematerialization path deliberately retains the
reference so a later fetch can restore it), refuting "no edge anywhere in
the graph still references X". -/
theorem remove_leaves_no_references_counterexample :
    (match GraphModel.remove asyncGraph userB with
      | Except.ok g2 => GraphModel.referencesIdentifier g2 userB
      | Except.error _ => false) = true := by
  rfl

/-- C2 (amended): after `remove(X)` returns successfully, `has(X, f)` is
false for every field `f` — the node is deleted from the registry — while
edges elsewhere in the graph may still reference X (the asynchronous
dematerialization paths retain such references for refetch). -/
theorem remove_clears_own_node (g : GraphModel) (x : StableIdentifier) (g2 : GraphModel)
    (h : GraphModel.remove g x = Except.ok g2) : ∀ f, g2.has x f = false := by
  unfold GraphModel.remove at h
  by_cases hr : g.removing.isSome = true
  · rw [if_pos hr] at h
    exact absurd h (by simp)
  · rw [if_neg hr] at h
    injection h with h
    intro f
    rw [← h]
    show GraphModel.has _ x f = false
    unfold GraphModel.has GraphModel.node
    rw [show ({ GraphModel.unload { g with removing := some x } x false with
          identifiers :=
            aerase (GraphModel.unload { g with removing := some x } x false).identifiers x,
          removing := none } : GraphModel).identifiers =
        aerase (GraphModel.unload { g with removing := some x } x false).identifiers x
      from rfl]
    rw [alookup_aerase_self]

/-- Witness for C2 (amended) at the example graph. -/
theorem remove_clears_own_node_witness :
    GraphModel.has asyncGraphRemoved userB "implicitPosts" = false ∧
    GraphModel.has asyncGraphRemoved userB "editor" = false :=
  ⟨remove_clears_own_node asyncGraph userB asyncGraphRemoved (by rfl) "implicitPosts",
   remove_clears_own_node asyncGraph userB asyncGraphRemoved (by rfl) "editor"⟩

/- ### C4 — inverse dematerialization branches -/

/-- Counterexample to C4 as stated: `remoteOnlyNewEdge` is an asynchronous
to-one edge whose `localState` is empty and whose `remoteState` is the
never-persisted `user:3`.  The claim requires that "when the definition is
synchronous or X is unpersisted, the reference to X is instead actually
removed" — here X (`user:3`) is unpersisted, yet the code's new-check
inspects the edge's `localState` (null here), takes the asynchronous
branch, sets `hasDematerializedInverse` and keeps `remoteState = X`. -/
theorem removeDematerializedInverse_unpersisted_counterexample :
    userNew.isNew = true ∧
    edgeReferences
      (removeDematerializedInverse blankGraph (GraphEdge.resource remoteOnlyNewEdge) userNew
        false).2 userNew = true ∧
    (edgeState
      (removeDematerializedInverse blankGraph (GraphEdge.resource remoteOnlyNewEdge) userNew
        false).2).hasDematerializedInverse = true :=
  ⟨rfl, by rfl, by rfl⟩

/-- C4 (amended): when an inverse to-one or to-many edge pointing at X has
an asynchronous definition while X is persisted, the edge's pointers and
member lists are left unchanged and only `hasDematerializedInverse` is set
(for a to-one edge this needs its `localState` to be X or empty, which the
dematerialization guard ensures).  When the definition is synchronous or X
is unpersisted, the reference is actually removed provided a to-one edge's
`localState` equals X — the pointers equal to X are cleared, with
`hasReceivedData := true` and `isEmpty := true` set when the remote pointer
equalled X — and a to-many edge is fully severed unconditionally. -/
theorem removeDematerializedInverse_branches (g : GraphModel) (silence : Bool)
    (x : StableIdentifier) :
    (∀ r : ResourceEdge, r.definition.isAsync = true → x.isNew = false →
      (r.localState = some x ∨ r.localState = none) →
      (removeDematerializedInverse g (GraphEdge.resource r) x silence).2 =
        GraphEdge.resource
          { r with state := { r.state with hasDematerializedInverse := true } }) ∧
    (∀ c : CollectionEdge, c.definition.isAsync = true → x.isNew = false →
      (removeDematerializedInverse g (GraphEdge.collection c) x silence).2 =
        GraphEdge.collection
          { c with state := { c.state with hasDematerializedInverse := true } }) ∧
    (∀ r : ResourceEdge, (r.definition.isAsync = false ∨ x.isNew = true) →
      r.localState = some x →
      edgeReferences (removeDematerializedInverse g (GraphEdge.resource r) x silence).2 x
          = false ∧
      (r.remoteState = some x →
        RelationshipState.hasReceivedData
            (edgeState (removeDematerializedInverse g (GraphEdge.resource r) x silence).2) =
          true ∧
        RelationshipState.isEmpty
            (edgeState (removeDematerializedInverse g (GraphEdge.resource r) x silence).2) =
          true)) ∧
    (∀ c : CollectionEdge, c.definition.isAsync = false ∨ x.isNew = true →
      edgeReferences (removeDematerializedInverse g (GraphEdge.collection c) x silence).2 x
        = false) := by
  refine ⟨?_, ?_, ?_, ?_⟩
  · intro r hasync hnew hls
    rcases hls with hls | hls <;>
      simp [removeDematerializedInverse, hasync, hnew, hls, isNew]
  · intro c hasync hnew
    simp [removeDematerializedInverse, hasync, hnew, isNew]
  · intro r hsync hls
    by_cases hrs : r.remoteState = some x
    · rcases hsync with hsync | hsync <;>
        simp [removeDematerializedInverse, hsync, hls, hrs, isNew, edgeReferences, edgeState]
    · rcases hsync with hsync | hsync <;>
        simp [removeDematerializedInverse, hsync, hls, hrs, isNew, edgeReferences, edgeState]
  · intro c hsync
    rcases hsync with hsync | hsync <;>
      simp [removeDematerializedInverse, removeIdentifierCompletelyFromRelationship, hsync,
        isNew, edgeReferences, contains_filter_ne]

/-- Witness for C4 (amended): the async persisted case at `post:1 . editor`
pointing at `user:2`, and the sync case at a synchronous variant whose
`localState` is `user:2`. -/
theorem removeDematerializedInverse_branches_witness :
    (removeDematerializedInverse blankGraph (GraphEdge.resource editorResource) userB
        false).2 =
      GraphEdge.resource
        { editorResource with
          state := { editorResource.state with hasDematerializedInverse := true } } :=
  (removeDematerializedInverse_branches blankGraph false userB).1 editorResource rfl rfl
    (Or.inl rfl)

/- ### C9 — destroy protocol for a non-implicit edge with a synchronous,
declared inverse -/

theorem notifyInverse_noop (g : GraphModel) (inv : StableIdentifier) (k : String)
    (x : StableIdentifier) (silence : Bool) (h : g.has inv k = false) :
    notifyInverseOfDematerialization g inv k x silence = g := by
  unfold notifyInverseOfDematerialization
  rw [h]
  rfl

theorem fold_notifyInverse_noop (l : List StableIdentifier) (g : GraphModel) (k : String)
    (x : StableIdentifier) (silence : Bool)
    (h : ∀ inv ∈ l, g.has inv k = false) :
    l.foldl (fun g inv => notifyInverseOfDematerialization g inv k x silence) g = g := by
  induction l with
  | nil => rfl
  | cons a rest ih =>
    rw [List.foldl_cons, notifyInverse_noop g a k x silence (h a (List.mem_cons_self a rest))]
    exact ih (fun inv hm => h inv (List.mem_cons_of_mem a hm))

/-- C9: During unload of a node, an edge that is not implicit and whose
inverse is neither implicit nor asynchronous is marked stale
(`isStale := true`), has both its state layers and membership sets cleared,
and a change notification on that edge's own (identity, field) pair is
emitted exactly when the field itself is synchronous (`isAsync = false`)
and the caller did not silence notifications.  (Stated for edges whose
related inverse edges are nowhere materialized, so the inverse
notifications of the protocol are no-ops; the rest of the graph is
untouched.) -/
theorem destroyRelationship_sync_inverse (g : GraphModel) (rel : GraphEdge) (silence : Bool)
    (h1 : isImplicit rel = false)
    (h2 : rel.definition.inverseIsImplicit = false)
    (h3 : rel.definition.inverseIsAsync = false)
    (h4 : ∀ inv ∈ relatedIdentifiers rel, g.has inv rel.definition.inverseKey = false) :
    (destroyRelationship g rel silence).2 = clearRelationship (setStale rel) ∧
    (edgeState (destroyRelationship g rel silence).2).isStale = true ∧
    edgeCleared (destroyRelationship g rel silence).2 = true ∧
    ((destroyRelationship g rel silence).1).identifiers = g.identifiers ∧
    ((destroyRelationship g rel silence).1).notifications =
      g.notifications ++
        (if rel.definition.isAsync = false ∧ silence = false
         then [(rel.identifier, rel.definition.key)] else []) := by
  have hfold := fold_notifyInverse_noop (relatedIdentifiers rel) g rel.definition.inverseKey
    rel.identifier silence h4
  cases rel with
  | implicitEdge i => simp [isImplicit] at h1
  | resource r =>
    simp only [GraphEdge.definition] at h2 h3
    simp only [GraphEdge.definition, GraphEdge.identifier] at hfold
    have hmain : destroyRelationship g (GraphEdge.resource r) silence =
        (if !r.definition.isAsync && !silence
          then notifyChange g r.identifier r.definition.key else g,
         clearRelationship (setStale (GraphEdge.resource r))) := by
      unfold destroyRelationship
      simp only [isImplicit, Bool.false_eq_true, if_false, GraphEdge.definition,
        GraphEdge.identifier, h2, h3, Bool.not_false, if_true, Bool.and_self]
      rw [hfold]
      rfl
    rw [hmain]
    refine ⟨rfl, rfl, rfl, ?_, ?_⟩
    · cases hA : r.definition.isAsync <;> cases hS : silence <;> simp [notifyChange, hA, hS]
    · cases hA : r.definition.isAsync <;> cases hS : silence <;>
        simp [notifyChange, hA, hS, GraphEdge.identifier, GraphEdge.definition]
  | collection c =>
    simp only [GraphEdge.definition] at h2 h3
    simp only [GraphEdge.definition, GraphEdge.identifier] at hfold
    have hmain : destroyRelationship g (GraphEdge.collection c) silence =
        (if !c.definition.isAsync && !silence
          then notifyChange g c.identifier c.definition.key else g,
         clearRelationship (setStale (GraphEdge.collection c))) := by
      unfold destroyRelationship
      simp only [isImplicit, Bool.false_eq_true, if_false, GraphEdge.definition,
        GraphEdge.identifier, h2, h3, Bool.not_false, if_true, Bool.and_self]
      rw [hfold]
      rfl
    rw [hmain]
    refine ⟨rfl, rfl, rfl, ?_, ?_⟩
    · cases hA : c.definition.isAsync <;> cases hS : silence <;> simp [notifyChange, hA, hS]
    · cases hA : c.definition.isAsync <;> cases hS : silence <;>
        simp [notifyChange, hA, hS, GraphEdge.identifier, GraphEdge.definition]

/-- Witness for C9 at the synchronous to-many edge `post:1 . comments`
(whose inverse edges are not materialized in the empty graph): the edge
comes back stale and cleared, and exactly one notification for
`(post:1, comments)` is emitted. -/
theorem destroyRelationship_sync_inverse_witness :
    (destroyRelationship blankGraph commentsEdge false).2 =
      clearRelationship (setStale commentsEdge) ∧
    edgeCleared (destroyRelationship blankGraph commentsEdge false).2 = true ∧
    ((destroyRelationship blankGraph commentsEdge false).1).notifications =
      blankGraph.notifications ++
        (if commentsEdge.definition.isAsync = false ∧ (false : Bool) = false
         then [(commentsEdge.identifier, commentsEdge.definition.key)] else []) :=
  have h := destroyRelationship_sync_inverse blankGraph commentsEdge false rfl rfl rfl
    (by decide)
  ⟨h.1, h.2.2.1, h.2.2.2.2⟩
